import Mathlib

/-!
Shallow embedding of the dds_cli / code_api local file transfer pipeline:
`dds_cli/file_handler_local.py` (LocalFileHandler) and
`code_api/data_deliverer.py` (DataDeliverer).

Bytes are modelled as `Nat`, file contents as `List Nat`, paths and names as
`String`.  Python `dict`s are modelled as association lists in insertion
order.  The streaming SHA-256 of `hashlib` is modelled by its defining
property: `update` appends to the byte buffer and `hexdigest` applies an
arbitrary digest function `Hhex : List Nat → String` to the accumulated
buffer, so every theorem quantifies over the digest function.
-/

namespace DDS

/-! ### Python `pathlib` name arithmetic (character level, structural) -/

/-- Index of the last '.' in a character list (Python `str.rfind('.')`). -/
def lastDotIdx : List Char → Option Nat
  | [] => none
  | c :: cs =>
    match lastDotIdx cs with
    | some i => some (i + 1)
    | none => if c == '.' then some 0 else none

/-- Python `PurePath.suffix`: the last extension of the name,
empty unless the last dot is at position `0 < i < len - 1`. -/
def pySuffix (name : String) : String :=
  match lastDotIdx name.data with
  | some i => if 0 < i && i + 1 < name.data.length then String.mk (name.data.drop i) else ""
  | none => ""

/-- Python `PurePath.stem`: the name with `pySuffix` removed. -/
def pyStem (name : String) : String :=
  String.mk (name.data.take (name.data.length - (pySuffix name).data.length))

/-- Split a character list on a separator character (Python `str.split(c)`). -/
def splitOnChar (sep : Char) : List Char → List (List Char)
  | [] => [[]]
  | c :: cs =>
    match splitOnChar sep cs with
    | [] => [[]]
    | h :: t => if c == sep then [] :: h :: t else (c :: h) :: t

/-- Python `PurePath.suffixes`: every extension of the name.  Empty when the
name ends in a dot; leading dots are stripped before splitting. -/
def pySuffixes (name : String) : List String :=
  if name.data.getLast? == some '.' then []
  else
    ((splitOnChar '.' ((name.data).dropWhile (· == '.'))).tail).map
      (fun s => String.mk ('.' :: s))

/-- Python `PurePath.with_suffix(suffix).name`: the stem with the new suffix. -/
def withSuffix (name suffix : String) : String := pyStem name ++ suffix

/-- Python `str(folder / name)` for a relative `folder` that may be empty. -/
def joinPath (folder name : String) : String :=
  if folder = "" then name else folder ++ "/" ++ name

/-- Python `PurePath.name` of a path string: its last `/`-component. -/
def baseName (p : String) : String :=
  String.mk ((splitOnChar '/' p.data).getLastD [])

/-! ### FileEntry: the per-file record built by `__collect_file_info_local` -/

structure FileEntry where
  path_raw : String
  subpath : String
  size_raw : Nat
  compressed : Bool
  path_processed : String
  size_processed : Nat
  path_remote : String
  overwrite : Bool
  checksum : String
deriving Repr, DecidableEq

/-! ### Naming scheme: `create_encrypted_name`, `generate_bucket_filepath` -/

/-- `LocalFileHandler.create_encrypted_name` (file_handler_local.py:206-214):
`old_suffix = "".join(raw_file.suffixes)`;
`new_suffix = old_suffix if no_compression else old_suffix + ".zst"`;
result is `local_destination / subpath / raw_file.with_suffix(new_suffix + ".ccp").name`. -/
def create_encrypted_name (local_destination subpath rawName : String)
    (no_compression : Bool) : String :=
  let old_suffix := String.join (pySuffixes rawName)
  let new_suffix := if no_compression then old_suffix else old_suffix ++ ".zst"
  joinPath (joinPath local_destination subpath) (withSuffix rawName (new_suffix ++ ".ccp"))

/-- `LocalFileHandler.generate_bucket_filepath` (file_handler_local.py:73-80):
`new_name = uuid4().hex[:6] + "_" + filename`; result `str(folder / new_name)`.
The 32-character lowercase-hex string produced by `uuid.uuid4().hex` is passed
in as `uuidHex`. -/
def generate_bucket_filepath (uuidHex filename folder : String) : String :=
  joinPath folder (String.mk (uuidHex.data.take 6) ++ "_" ++ filename)

/-- The spec's bit-exact naming rule, written from the spec's words (§6):
processed local filename = `<original-stem-and-suffixes>[.zst].ccp`, i.e. the
whole original name followed by `.zst` when not already compressed, then
`.ccp`.  Refinement target for comparison with `create_encrypted_name`. -/
def specProcessedName (rawName : String) (isCompressed : Bool) : String :=
  rawName ++ (if isCompressed then "" else ".zst") ++ ".ccp"

/-- Lowercase hexadecimal digit (the alphabet of `uuid.uuid4().hex`). -/
def isHexLower (c : Char) : Bool := c.isDigit || ('a' ≤ c && c ≤ 'f')

/-! ### Chunked reading: `LocalFileHandler.read_file` -/

/-- Fuel-driven chunking of a byte list: `l.take n :: … ` until empty. -/
def chunksOfAux (n : Nat) : Nat → List Nat → List (List Nat)
  | 0, _ => []
  | _ + 1, [] => []
  | fuel + 1, b :: bs => (b :: bs).take n :: chunksOfAux n fuel ((b :: bs).drop n)

/-- `LocalFileHandler.read_file` (file_handler_local.py:251-263) on a file whose
content is `content`: yields `chunk_size`-sized chunks until `read` returns the
empty bytes object.  With `chunk_size = 0` Python's `read(0)` returns `b""` at
once and nothing is yielded. -/
def read_file (content : List Nat) (chunk_size : Nat) : List (List Nat) :=
  if chunk_size = 0 then [] else chunksOfAux chunk_size content.length content

/-! ### The streaming generator: `LocalFileHandler.stream_from_file`

The generator for a `compressed = true` entry (file_handler_local.py:224-227
and 249) is embedded as a small-step machine: each step either consumes the
next pending chunk (`checksum.update(chunk); yield chunk`) or, once the chunks
are exhausted, executes the epilogue
`self.data[file]["checksum"] = checksum.hexdigest()` exactly once. -/

structure StreamState where
  pending : List (List Nat)
  hashed : List Nat
  yielded : List (List Nat)
  entry : FileEntry
  done : Bool
deriving Repr, DecidableEq

/-- Initial generator state for the `compressed = true` branch: the pending
chunks are `read_file(path_raw)`, the running digest buffer is empty. -/
def streamInit (entry : FileEntry) (content : List Nat) (chunk_size : Nat) : StreamState :=
  { pending := read_file content chunk_size, hashed := [], yielded := [],
    entry := entry, done := false }

/-- One resumption of the generator in the `compressed = true` branch. -/
def streamStep (Hhex : List Nat → String) (s : StreamState) : StreamState :=
  match s.pending with
  | c :: rest =>
    { s with pending := rest, hashed := s.hashed ++ c, yielded := s.yielded ++ [c] }
  | [] =>
    if s.done then s
    else { s with entry := { s.entry with checksum := Hhex s.hashed }, done := true }

/-- The generator resumed `k` times from state `s`. -/
def streamRun (Hhex : List Nat → String) (s : StreamState) : Nat → StreamState
  | 0 => s
  | k + 1 => streamStep Hhex (streamRun Hhex s k)

/-- Modelled from the spec: `fc.Compressor.compress_file` lives in
`dds_cli/file_compressor.py`, which is not under src.  The spec (§4.4) fixes
only that it independently re-reads the raw file and yields its compressed
chunks; the compression transform itself is therefore passed in as the
function argument `compress`. -/
def compress_file (compress : List Nat → List (List Nat)) (content : List Nat) :
    List (List Nat) := compress content

/-- `LocalFileHandler.stream_from_file` (file_handler_local.py:216-249) run to
exhaustion, returning (yielded chunks, final FileEntry, number of passes over
the raw file).  Compressed branch: one pass through `read_file`, each chunk
hashed and yielded.  Uncompressed branch: a first full pass through
`read_file` only feeds the digest, then `fc.Compressor.compress_file` re-reads
the raw file (second pass) and its chunks are yielded unhashed; finally the
hexdigest is written into the entry's `checksum`. -/
def stream_from_file (Hhex : List Nat → String) (compress : List Nat → List (List Nat))
    (chunk_size : Nat) (entry : FileEntry) (content : List Nat) :
    List (List Nat) × FileEntry × Nat :=
  if entry.compressed then
    let chunks := read_file content chunk_size
    (chunks, { entry with checksum := Hhex chunks.flatten }, 1)
  else
    let hashedChunks := read_file content chunk_size
    (compress_file compress content,
     { entry with checksum := Hhex hashedChunks.flatten }, 2)

/-! ### Status tracking: `LocalFileHandler.create_upload_status_dict` -/

structure SubStatus where
  started : Bool
  done : Bool
deriving Repr, DecidableEq

structure UploadStatus where
  cancel : Bool
  started : Bool
  message : String
  failed_op : Option String
  put : SubStatus
  add_file_db : SubStatus
deriving Repr, DecidableEq

/-- The fresh status record inserted for every file kept in the work set
(file_handler_local.py:154-163). -/
def initialUploadStatus : UploadStatus :=
  { cancel := false, started := false, message := "", failed_op := none,
    put := { started := false, done := false },
    add_file_db := { started := false, done := false } }

/-- A `self.failed` record: the popped FileEntry plus the failure message. -/
structure FailedFile where
  entry : FileEntry
  message : String
deriving Repr, DecidableEq

/-- Association-list lookup, modelling Python `d[k]` / `k in d`. -/
def lookup? (m : List (String × α)) (k : String) : Option α :=
  (m.find? (fun p => p.1 == k)).map (·.2)

/-- `LocalFileHandler.create_upload_status_dict` (file_handler_local.py:128-167)
over the catalog `data` (insertion-ordered association list).  Returns the
remaining `self.data`, the `self.failed` additions, and the status dict.  A key
found in `existing_files` without permission to overwrite is popped into
`failed` with message "File already uploaded" and gets no status entry; with
permission it is kept with `overwrite := true` and `path_remote` replaced by
the pre-existing remote path `existing_files[x]`. -/
def create_upload_status_dict (existing_files : List (String × String))
    (overwrite : Bool) :
    List (String × FileEntry) →
      List (String × FileEntry) × List (String × FailedFile) × List (String × UploadStatus)
  | [] => ([], [], [])
  | (x, e) :: rest =>
    let (d, f, s) := create_upload_status_dict existing_files overwrite rest
    let in_db := (lookup? existing_files x).isSome
    if in_db && !overwrite then
      (d, (x, { entry := e, message := "File already uploaded" }) :: f, s)
    else
      let e' :=
        if in_db then
          if overwrite then
            { e with overwrite := true,
                     path_remote := (lookup? existing_files x).getD e.path_remote }
          else e
        else e
      ((x, e') :: d, f, (x, initialUploadStatus) :: s)

/-! ### Lemmas about chunked reading and the stream machine -/

theorem chunksOfAux_flatten (n : Nat) (hn : 0 < n) :
    ∀ fuel l, l.length ≤ fuel → (chunksOfAux n fuel l).flatten = l := by
  intro fuel
  induction fuel with
  | zero =>
    intro l hl
    have : l = [] := List.length_eq_zero.mp (Nat.le_zero.mp hl)
    subst this
    rfl
  | succ fuel ih =>
    intro l hl
    cases l with
    | nil => rfl
    | cons b bs =>
      have hdrop : ((b :: bs).drop n).length ≤ fuel := by
        rw [List.length_drop]
        simp only [List.length_cons] at hl ⊢
        omega
      simp only [chunksOfAux, List.flatten_cons, ih _ hdrop]
      exact List.take_append_drop n (b :: bs)

theorem read_file_flatten (content : List Nat) (chunk_size : Nat) (h : 0 < chunk_size) :
    (read_file content chunk_size).flatten = content := by
  unfold read_file
  rw [if_neg (Nat.pos_iff_ne_zero.mp h)]
  exact chunksOfAux_flatten chunk_size h content.length content (Nat.le_refl _)

theorem streamRun_before_exhaustion (Hhex : List Nat → String) (entry : FileEntry)
    (content : List Nat) (chunk_size : Nat) :
    ∀ k, k ≤ (read_file content chunk_size).length →
      streamRun Hhex (streamInit entry content chunk_size) k =
        { pending := (read_file content chunk_size).drop k,
          hashed := ((read_file content chunk_size).take k).flatten,
          yielded := (read_file content chunk_size).take k,
          entry := entry, done := false } := by
  intro k
  induction k with
  | zero =>
    intro _
    simp [streamRun, streamInit]
  | succ k ih =>
    intro hk
    have hk' : k < (read_file content chunk_size).length := Nat.lt_of_succ_le hk
    have hstep := ih (Nat.le_of_lt hk')
    simp only [streamRun, hstep, streamStep]
    rw [List.drop_eq_getElem_cons hk']
    simp only [List.take_succ, List.getElem?_eq_getElem hk', Option.toList_some,
      List.flatten_append, List.flatten_cons, List.flatten_nil, List.append_nil]

/-- Sample digest function for concrete witnesses: digits of the bytes. -/
def sampleHex (l : List Nat) : String :=
  String.mk (l.map (fun b => Char.ofNat (48 + b % 10)))

/-- A concrete already-compressed FileEntry used by witnesses. -/
def sampleCompressedEntry : FileEntry :=
  { path_raw := "a.zip", subpath := "", size_raw := 5, compressed := true,
    path_processed := "a.zip.ccp", size_processed := 0,
    path_remote := "012345_a.zip.ccp", overwrite := false, checksum := "" }

/-- A concrete not-yet-compressed FileEntry used by witnesses. -/
def sampleRawEntry : FileEntry :=
  { path_raw := "b.txt", subpath := "", size_raw := 3, compressed := false,
    path_processed := "b.txt.zst.ccp", size_processed := 0,
    path_remote := "012345_b.txt.zst.ccp", overwrite := false, checksum := "" }

/-- Claim C1: for a FileEntry with `compressed = true`, after the chunk
sequence of `stream_from_file` is exhausted the entry's `checksum` equals the
digest of the whole raw file (`Hhex content`, the hexdigest of every raw byte
in one pass), the yielded chunks are exactly the raw chunks, and before
exhaustion (any `k` resumptions with `k` at most the number of chunks) the
`checksum` field is still empty. -/
theorem stream_compressed_checksum_whole_file (Hhex : List Nat → String)
    (entry : FileEntry) (content : List Nat) (chunk_size k : Nat)
    (hcs : 0 < chunk_size) (_hcomp : entry.compressed = true)
    (hinit : entry.checksum = "")
    (hk : k ≤ (read_file content chunk_size).length) :
    (streamRun Hhex (streamInit entry content chunk_size) k).entry.checksum = "" ∧
    (streamRun Hhex (streamInit entry content chunk_size)
        ((read_file content chunk_size).length + 1)).done = true ∧
    (streamRun Hhex (streamInit entry content chunk_size)
        ((read_file content chunk_size).length + 1)).yielded
      = read_file content chunk_size ∧
    (streamRun Hhex (streamInit entry content chunk_size)
        ((read_file content chunk_size).length + 1)).entry.checksum = Hhex content := by
  have hfin := streamRun_before_exhaustion Hhex entry content chunk_size
    (read_file content chunk_size).length (Nat.le_refl _)
  have hup := streamRun_before_exhaustion Hhex entry content chunk_size k hk
  have hN : streamRun Hhex (streamInit entry content chunk_size)
      ((read_file content chunk_size).length + 1)
      = { pending := [], hashed := content,
          yielded := read_file content chunk_size,
          entry := { entry with checksum := Hhex content }, done := true } := by
    simp only [streamRun, hfin, streamStep, List.drop_length, List.take_length,
      read_file_flatten content chunk_size hcs, Bool.false_eq_true, if_false]
  refine ⟨?_, ?_, ?_, ?_⟩
  · rw [hup]; exact hinit
  · rw [hN]
  · rw [hN]
  · rw [hN]

/-- Witness for C1 at a concrete input: content `[1,2,3,4,5]`, chunk size 2
(three chunks), resumed twice before exhaustion. -/
theorem stream_compressed_checksum_whole_file_witness :
    (streamRun sampleHex (streamInit sampleCompressedEntry [1, 2, 3, 4, 5] 2) 2).entry.checksum
      = "" ∧
    (streamRun sampleHex (streamInit sampleCompressedEntry [1, 2, 3, 4, 5] 2)
        ((read_file [1, 2, 3, 4, 5] 2).length + 1)).done = true ∧
    (streamRun sampleHex (streamInit sampleCompressedEntry [1, 2, 3, 4, 5] 2)
        ((read_file [1, 2, 3, 4, 5] 2).length + 1)).yielded
      = read_file [1, 2, 3, 4, 5] 2 ∧
    (streamRun sampleHex (streamInit sampleCompressedEntry [1, 2, 3, 4, 5] 2)
        ((read_file [1, 2, 3, 4, 5] 2).length + 1)).entry.checksum
      = sampleHex [1, 2, 3, 4, 5] :=
  stream_compressed_checksum_whole_file sampleHex sampleCompressedEntry
    [1, 2, 3, 4, 5] 2 2 (by decide) (by decide) (by decide) (by decide)

/-- Claim C2: for a FileEntry with `compressed = false`, `stream_from_file`
makes two passes over the raw file: the recorded checksum is the digest of the
raw bytes gathered in the first full read, while the chunks actually yielded
are the output of `compress_file` over an independent second read — so the
checksum authenticates the original content, not the transmitted bytes. -/
theorem stream_uncompressed_double_read (Hhex : List Nat → String)
    (compress : List Nat → List (List Nat)) (chunk_size : Nat)
    (entry : FileEntry) (content : List Nat)
    (hcomp : entry.compressed = false) (hcs : 0 < chunk_size) :
    (stream_from_file Hhex compress chunk_size entry content).1
      = compress_file compress content ∧
    (stream_from_file Hhex compress chunk_size entry content).2.1
      = { entry with checksum := Hhex content } ∧
    (stream_from_file Hhex compress chunk_size entry content).2.2 = 2 := by
  simp [stream_from_file, hcomp, read_file_flatten content chunk_size hcs, compress_file]

/-- Witness for C2 at a concrete input: content `[7,8,9]`, a compressor that
produces one chunk unrelated to the raw bytes; the checksum still digests the
raw bytes. -/
theorem stream_uncompressed_double_read_witness :
    (stream_from_file sampleHex (fun l => [l ++ l]) 2 sampleRawEntry [7, 8, 9]).1
      = compress_file (fun l => [l ++ l]) [7, 8, 9] ∧
    (stream_from_file sampleHex (fun l => [l ++ l]) 2 sampleRawEntry [7, 8, 9]).2.1
      = { sampleRawEntry with checksum := sampleHex [7, 8, 9] } ∧
    (stream_from_file sampleHex (fun l => [l ++ l]) 2 sampleRawEntry [7, 8, 9]).2.2 = 2 :=
  stream_uncompressed_double_read sampleHex (fun l => [l ++ l]) 2 sampleRawEntry
    [7, 8, 9] (by decide) (by decide)

/-! ### Lemmas about `splitOnChar` and `baseName` -/

theorem splitOnChar_ne_nil (sep : Char) (l : List Char) : splitOnChar sep l ≠ [] := by
  cases l with
  | nil => simp [splitOnChar]
  | cons c cs =>
    simp only [splitOnChar]
    cases h : splitOnChar sep cs with
    | nil => simp
    | cons h t =>
      by_cases hc : c == sep <;> simp [hc]

theorem splitOnChar_not_mem (sep : Char) (l : List Char) (h : sep ∉ l) :
    splitOnChar sep l = [l] := by
  induction l with
  | nil => rfl
  | cons c cs ih =>
    have hc : ¬(c == sep) = true := by
      simp only [beq_iff_eq]
      intro he
      exact h (he ▸ List.mem_cons_self c cs)
    have hcs : sep ∉ cs := fun hm => h (List.mem_cons_of_mem c hm)
    simp [splitOnChar, ih hcs, hc]

theorem splitOnChar_length_two (sep : Char) (l : List Char) (h : sep ∈ l) :
    2 ≤ (splitOnChar sep l).length := by
  induction l with
  | nil => cases h
  | cons c cs ih =>
    simp only [splitOnChar]
    cases hr : splitOnChar sep cs with
    | nil => exact absurd hr (splitOnChar_ne_nil sep cs)
    | cons rh rt =>
      by_cases hc : c == sep
      · simp [hc]
      · have hmem : sep ∈ cs := by
          cases List.mem_cons.mp h with
          | inl he => exact absurd (beq_iff_eq.mpr he.symm) hc
          | inr hm => exact hm
        have := ih hmem
        rw [hr] at this
        simpa [hc] using this

theorem splitOnChar_append_getLast? (sep : Char) (n : List Char) (hn : sep ∉ n) :
    ∀ a : List Char, (splitOnChar sep (a ++ sep :: n)).getLast? = some n := by
  intro a
  induction a with
  | nil =>
    simp only [List.nil_append, splitOnChar, splitOnChar_not_mem sep n hn, beq_self_eq_true,
      if_true]
    rfl
  | cons c a' ih =>
    simp only [List.cons_append, splitOnChar]
    cases hr : splitOnChar sep (a' ++ sep :: n) with
    | nil => exact absurd hr (splitOnChar_ne_nil sep _)
    | cons rh rt =>
      have hlen : 2 ≤ (splitOnChar sep (a' ++ sep :: n)).length :=
        splitOnChar_length_two sep _ (List.mem_append_right a' (List.mem_cons_self sep n))
      rw [hr] at hlen
      have hrt : rt ≠ [] := by
        intro he
        rw [he] at hlen
        simp at hlen
      rw [hr] at ih
      cases hc : c == sep with
      | true =>
        simp only [hc, if_true]
        rw [List.getLast?_cons_cons]
        exact ih
      | false =>
        have h1 : ((c :: rh) :: rt).getLast? = rt.getLast? := by
          cases rt with
          | nil => exact absurd rfl hrt
          | cons x xs => simp [List.getLast?_cons_cons]
        have h2 : (rh :: rt).getLast? = rt.getLast? := by
          cases rt with
          | nil => exact absurd rfl hrt
          | cons x xs => simp [List.getLast?_cons_cons]
        simp only [hc, Bool.false_eq_true, if_false, h1]
        rw [h2] at ih
        exact ih

/-- The last `/`-component of `joinPath folder name` is `name`, provided the
name itself contains no separator. -/
theorem baseName_joinPath (folder name : String) (h : '/' ∉ name.data) :
    baseName (joinPath folder name) = name := by
  unfold baseName joinPath
  by_cases hf : folder = ""
  · simp only [hf, if_true]
    rw [splitOnChar_not_mem '/' name.data h]
    rfl
  · simp only [hf, if_false]
    have hdata : (folder ++ "/" ++ name).data = folder.data ++ '/' :: name.data := by
      simp [String.data_append]
    rw [hdata]
    have := splitOnChar_append_getLast? '/' name.data h folder.data
    rw [List.getLastD_eq_getLast?, this]
    rfl

/-! ### Claim C3: the naming scheme -/

/-- The processed local file name exactly as `create_encrypted_name` builds it:
the raw name's last suffix is replaced (via `with_suffix`) by the whole joined
suffix chain, the optional `.zst` tag, and `.ccp`. -/
def processedName (rawName : String) (isCompressed : Bool) : String :=
  let old_suffix := String.join (pySuffixes rawName)
  let new_suffix := if isCompressed then old_suffix else old_suffix ++ ".zst"
  withSuffix rawName (new_suffix ++ ".ccp")

/-- Claim C3 counterexample: for the already-compressed raw file `a.tar.gz`
the claim expects processed name `a.tar.gz.ccp`
(`<original-stem-and-suffixes>.ccp`), but `create_encrypted_name` calls
`with_suffix`, which first strips the last suffix `.gz` and then appends the
whole chain `.tar.gz.ccp`, producing `a.tar.tar.gz.ccp` with `.tar`
duplicated. -/
theorem create_encrypted_name_counterexample :
    baseName (create_encrypted_name "" "" "a.tar.gz" true) = "a.tar.tar.gz.ccp" ∧
    baseName (create_encrypted_name "" "" "a.tar.gz" true) ≠ specProcessedName "a.tar.gz" true := by
  decide

/-- Claim C3 (amended): the processed local filename is the raw name with its
last suffix replaced by the full original suffix chain, then `.zst` exactly
when the file is not already compressed, then `.ccp` (this coincides with
`<original-stem-and-suffixes>[.zst].ccp` only when stripping the last suffix
of the raw name leaves exactly the stem, e.g. for single-suffix names); the
remote key is `<subpath>/<6-hex-random>_<processedFileName>` where the prefix
is the first six characters of `uuid4().hex`, hence six lowercase hex
digits. -/
theorem create_encrypted_name_and_remote_key (ld sp rawName uuidHex : String)
    (isCompressed : Bool)
    (hslash : '/' ∉ (processedName rawName isCompressed).data)
    (hlen : uuidHex.data.length = 32)
    (hhex : ∀ c ∈ uuidHex.data, isHexLower c = true) :
    create_encrypted_name ld sp rawName isCompressed
      = joinPath (joinPath ld sp) (processedName rawName isCompressed) ∧
    processedName rawName isCompressed
      = pyStem rawName
        ++ ((if isCompressed then String.join (pySuffixes rawName)
             else String.join (pySuffixes rawName) ++ ".zst") ++ ".ccp") ∧
    baseName (create_encrypted_name ld sp rawName isCompressed)
      = processedName rawName isCompressed ∧
    generate_bucket_filepath uuidHex (processedName rawName isCompressed) sp
      = joinPath sp (String.mk (uuidHex.data.take 6) ++ "_"
          ++ processedName rawName isCompressed) ∧
    (uuidHex.data.take 6).length = 6 ∧
    (∀ c ∈ uuidHex.data.take 6, isHexLower c = true) := by
  refine ⟨rfl, rfl, ?_, rfl, ?_, ?_⟩
  · have : create_encrypted_name ld sp rawName isCompressed
        = joinPath (joinPath ld sp) (processedName rawName isCompressed) := rfl
    rw [this, baseName_joinPath _ _ hslash]
  · rw [List.length_take, hlen]
    decide
  · intro c hc
    exact hhex c (List.take_subset 6 uuidHex.data hc)

/-- Witness for C3 (amended) at a concrete input: `dest/sub`, raw name
`a.txt`, not compressed, a fixed 32-hex uuid. -/
theorem create_encrypted_name_and_remote_key_witness :
    create_encrypted_name "dest" "sub" "a.txt" false
      = joinPath (joinPath "dest" "sub") (processedName "a.txt" false) ∧
    processedName "a.txt" false
      = pyStem "a.txt"
        ++ ((if false then String.join (pySuffixes "a.txt")
             else String.join (pySuffixes "a.txt") ++ ".zst") ++ ".ccp") ∧
    baseName (create_encrypted_name "dest" "sub" "a.txt" false)
      = processedName "a.txt" false ∧
    generate_bucket_filepath "0123456789abcdef0123456789abcdef" (processedName "a.txt" false) "sub"
      = joinPath "sub" (String.mk ("0123456789abcdef0123456789abcdef".data.take 6) ++ "_"
          ++ processedName "a.txt" false) ∧
    ("0123456789abcdef0123456789abcdef".data.take 6).length = 6 ∧
    (∀ c ∈ "0123456789abcdef0123456789abcdef".data.take 6, isHexLower c = true) :=
  create_encrypted_name_and_remote_key "dest" "sub" "a.txt"
    "0123456789abcdef0123456789abcdef" false (by decide) (by decide) (by decide)

/-! ### Claims C4 and C5: the deduplication outcome in `create_upload_status_dict` -/

theorem lookup?_cons (y : String) (v : α) (l : List (String × α)) (x : String) :
    lookup? ((y, v) :: l) x = if y == x then some v else lookup? l x := by
  simp only [lookup?, List.find?]
  cases h : y == x <;> simp [h]

theorem create_upload_status_dict_not_mem (existing : List (String × String))
    (ow : Bool) (x : String) :
    ∀ data : List (String × FileEntry), x ∉ data.map Prod.fst →
      lookup? (create_upload_status_dict existing ow data).1 x = none ∧
      lookup? (create_upload_status_dict existing ow data).2.1 x = none ∧
      lookup? (create_upload_status_dict existing ow data).2.2 x = none := by
  intro data
  induction data with
  | nil => intro _; exact ⟨rfl, rfl, rfl⟩
  | cons p rest ih =>
    intro hx
    obtain ⟨y, e⟩ := p
    have hyx : ¬(y == x) = true := by
      simp only [beq_iff_eq]
      intro he
      exact hx (he ▸ List.mem_cons_self _ _)
    have hrest : x ∉ rest.map Prod.fst := fun hm => hx (List.mem_cons_of_mem _ hm)
    have ⟨ih1, ih2, ih3⟩ := ih hrest
    simp only [create_upload_status_dict]
    by_cases hdb : (lookup? existing y).isSome && !ow
    · simp only [hdb, if_true, lookup?_cons, hyx, if_false]
      exact ⟨ih1, ih2, ih3⟩
    · simp only [hdb, if_false, lookup?_cons, hyx, Bool.false_eq_true, if_false]
      exact ⟨ih1, ih2, ih3⟩

/-- Claim C4 counterexample: with catalog `["a.txt"]`, dedup response
mapping `a.txt` to an old key, and `overwrite = false`, the failed record's
message is the literal string "File already uploaded", not the claimed
"already delivered". -/
theorem upload_status_already_uploaded_counterexample :
    (create_upload_status_dict [("a.txt", "old-key")] false [("a.txt", sampleRawEntry)]).2.1
      = [("a.txt", { entry := sampleRawEntry, message := "File already uploaded" })] ∧
    "File already uploaded" ≠ "already delivered" := by
  decide

/-- Claim C4 (amended): a catalog key reported as already existing remotely,
without permission to overwrite, is popped into `self.failed` with message
"File already uploaded" (not "already delivered"), is removed from the active
data map, and gets no upload-status entry. -/
theorem upload_status_skip_existing (existing : List (String × String))
    (data : List (String × FileEntry)) (x : String) (e : FileEntry)
    (hmem : (x, e) ∈ data) (hnodup : (data.map Prod.fst).Nodup)
    (hdb : (lookup? existing x).isSome = true) :
    lookup? (create_upload_status_dict existing false data).2.1 x
      = some { entry := e, message := "File already uploaded" } ∧
    lookup? (create_upload_status_dict existing false data).1 x = none ∧
    lookup? (create_upload_status_dict existing false data).2.2 x = none := by
  induction data with
  | nil => cases hmem
  | cons p rest ih =>
    obtain ⟨y, ey⟩ := p
    simp only [List.map_cons, List.nodup_cons] at hnodup
    by_cases hyx : y = x
    · subst hyx
      have hee : ey = e := by
        cases List.mem_cons.mp hmem with
        | inl h => exact congrArg Prod.snd h.symm
        | inr h =>
          exact absurd (List.mem_map.mpr ⟨(y, e), h, rfl⟩) hnodup.1
      subst hee
      have hcond : ((lookup? existing y).isSome && !false) = true := by
        simp [hdb]
      have hout := create_upload_status_dict_not_mem existing false y rest hnodup.1
      refine ⟨?_, ?_, ?_⟩ <;>
        simp [create_upload_status_dict, hcond, hdb, lookup?_cons, hout.1, hout.2.1, hout.2.2]
    · have hmem' : (x, e) ∈ rest := by
        cases List.mem_cons.mp hmem with
        | inl h => exact absurd (congrArg Prod.fst h).symm hyx
        | inr h => exact h
      have ⟨ih1, ih2, ih3⟩ := ih hmem' hnodup.2
      have hyx' : ¬(y == x) = true := by simp [hyx]
      simp only [create_upload_status_dict]
      by_cases hdby : (lookup? existing y).isSome && !false
      · simp only [hdby, if_true, lookup?_cons, hyx', if_false]
        exact ⟨ih1, ih2, ih3⟩
      · simp only [hdby, Bool.false_eq_true, if_false, lookup?_cons, hyx', if_false]
        exact ⟨ih1, ih2, ih3⟩

/-- Witness for C4 (amended) at the concrete scenario of the spec: catalog
`["a.txt"]`, dedup response `{"a.txt": "old-key"}`, `overwrite = false`. -/
theorem upload_status_skip_existing_witness :
    lookup? (create_upload_status_dict [("a.txt", "old-key")] false
        [("a.txt", sampleRawEntry)]).2.1 "a.txt"
      = some { entry := sampleRawEntry, message := "File already uploaded" } ∧
    lookup? (create_upload_status_dict [("a.txt", "old-key")] false
        [("a.txt", sampleRawEntry)]).1 "a.txt" = none ∧
    lookup? (create_upload_status_dict [("a.txt", "old-key")] false
        [("a.txt", sampleRawEntry)]).2.2 "a.txt" = none :=
  upload_status_skip_existing [("a.txt", "old-key")] [("a.txt", sampleRawEntry)]
    "a.txt" sampleRawEntry (by decide) (by decide) (by decide)

/-- Claim C5: a catalog key reported as already existing remotely, with
permission to overwrite, is kept in the data map with `overwrite := true` and
its `path_remote` replaced by the pre-existing remote path returned by the
check, and it receives a fresh upload-status entry. -/
theorem upload_status_overwrite_existing (existing : List (String × String))
    (data : List (String × FileEntry)) (x : String) (e : FileEntry) (r : String)
    (hmem : (x, e) ∈ data) (hnodup : (data.map Prod.fst).Nodup)
    (hdb : lookup? existing x = some r) :
    lookup? (create_upload_status_dict existing true data).1 x
      = some { e with overwrite := true, path_remote := r } ∧
    lookup? (create_upload_status_dict existing true data).2.2 x
      = some initialUploadStatus ∧
    lookup? (create_upload_status_dict existing true data).2.1 x = none := by
  induction data with
  | nil => cases hmem
  | cons p rest ih =>
    obtain ⟨y, ey⟩ := p
    simp only [List.map_cons, List.nodup_cons] at hnodup
    by_cases hyx : y = x
    · subst hyx
      have hee : ey = e := by
        cases List.mem_cons.mp hmem with
        | inl h => exact congrArg Prod.snd h.symm
        | inr h =>
          exact absurd (List.mem_map.mpr ⟨(y, e), h, rfl⟩) hnodup.1
      subst hee
      have hout := create_upload_status_dict_not_mem existing true y rest hnodup.1
      refine ⟨?_, ?_, ?_⟩ <;>
        simp [create_upload_status_dict, hdb, lookup?_cons, hout.1, hout.2.1, hout.2.2]
    · have hmem' : (x, e) ∈ rest := by
        cases List.mem_cons.mp hmem with
        | inl h => exact absurd (congrArg Prod.fst h).symm hyx
        | inr h => exact h
      have ⟨ih1, ih2, ih3⟩ := ih hmem' hnodup.2
      have hyx' : ¬(y == x) = true := by simp [hyx]
      simp only [create_upload_status_dict, Bool.not_true, Bool.and_false,
        Bool.false_eq_true, if_false, lookup?_cons, hyx']
      exact ⟨ih1, ih2, ih3⟩

/-- Witness for C5 at a concrete input: catalog `["a.txt"]`, dedup response
`{"a.txt": "old-key"}`, `overwrite = true`. -/
theorem upload_status_overwrite_existing_witness :
    lookup? (create_upload_status_dict [("a.txt", "old-key")] true
        [("a.txt", sampleRawEntry)]).1 "a.txt"
      = some { sampleRawEntry with overwrite := true, path_remote := "old-key" } ∧
    lookup? (create_upload_status_dict [("a.txt", "old-key")] true
        [("a.txt", sampleRawEntry)]).2.2 "a.txt" = some initialUploadStatus ∧
    lookup? (create_upload_status_dict [("a.txt", "old-key")] true
        [("a.txt", sampleRawEntry)]).2.1 "a.txt" = none :=
  upload_status_overwrite_existing [("a.txt", "old-key")] [("a.txt", sampleRawEntry)]
    "a.txt" sampleRawEntry "old-key" (by decide) (by decide) (by decide)

/-! ### Claim C6: duplicate input paths at catalog-build time

Two catalog builders exist in the repository.  `DataDeliverer.data_to_deliver`
(data_deliverer.py:326-379) raises `DeliveryOptionException` when any element
of the collected list appears more than once.  `LocalFileHandler.__init__`
(file_handler_local.py:59-67) instead runs the resolved existing paths through
`list(set(...))`, silently merging duplicates.  The filesystem is abstracted
by the oracles `pathExists` (does the path exist) and `resolve` (absolute
resolved identity). -/

inductive DeliveryItem where
  | resolved (p : String)
  | unresolved (orig : String)
deriving Repr, DecidableEq

/-- `DataDeliverer.data_to_deliver` for the `put` method with `--data` paths:
existing paths are resolved, non-existent ones kept as explicit unresolved
markers (`[None, d]` in the source), then any element occurring more than once
raises `DeliveryOptionException`. -/
def data_to_deliver (pathExists : String → Bool) (resolve : String → String)
    (data : List String) : Except String (List DeliveryItem) :=
  let all_files := data.map (fun d =>
    if pathExists d then DeliveryItem.resolved (resolve d) else DeliveryItem.unresolved d)
  if all_files.any (fun e => all_files.count e != 1) then
    Except.error "The path to file is listed multiple times, please remove path dublicates."
  else
    Except.ok all_files

/-- `LocalFileHandler.__init__` line 60:
`list(set(pathlib.Path(x).resolve() for x in self.data_list if pathlib.Path(x).exists()))`.
Python's `set` iteration order is unspecified; the model keeps one
representative per resolved identity via `dedup`. -/
def localHandlerDataList (pathExists : String → Bool) (resolve : String → String)
    (data_list : List String) : List String :=
  ((data_list.filter pathExists).map resolve).dedup

/-- `LocalFileHandler.__init__` lines 59-67: after deduplication, an empty
list aborts the process (`os._exit(0)`, modelled as `none`); otherwise the
catalog is built from the deduplicated paths. -/
def localHandlerCatalogPaths (pathExists : String → Bool) (resolve : String → String)
    (data_list : List String) : Option (List String) :=
  let l := localHandlerDataList pathExists resolve data_list
  if l.isEmpty then none else some l

/-- Claim C6 counterexample: `LocalFileHandler` is given the same existing
path twice; no hard error occurs — the catalog is built with the duplicate
silently merged into a single entry. -/
theorem duplicate_path_silent_merge_counterexample :
    localHandlerCatalogPaths (fun _ => true) (fun p => p) ["p", "p"] = some ["p"] := by
  decide

/-- Claim C6 (amended): `DataDeliverer.data_to_deliver` does reject an input
list in which some element (same resolved identity) occurs more than once,
with a hard `DeliveryOptionException`; but `LocalFileHandler.__init__`
silently deduplicates instead — its catalog path list is always duplicate-free
and no error is raised for duplicated inputs. -/
theorem duplicate_path_handling (pathExists : String → Bool)
    (resolve : String → String) (data : List String) (e : DeliveryItem)
    (hdup : 1 < (data.map (fun d =>
        if pathExists d then DeliveryItem.resolved (resolve d)
        else DeliveryItem.unresolved d)).count e) :
    (∃ msg, data_to_deliver pathExists resolve data = Except.error msg) ∧
    (localHandlerDataList pathExists resolve data).Nodup := by
  constructor
  · refine ⟨"The path to file is listed multiple times, please remove path dublicates.", ?_⟩
    have hany : ((data.map (fun d =>
        if pathExists d then DeliveryItem.resolved (resolve d)
        else DeliveryItem.unresolved d)).any (fun x => (data.map (fun d =>
        if pathExists d then DeliveryItem.resolved (resolve d)
        else DeliveryItem.unresolved d)).count x != 1)) = true := by
      rw [List.any_eq_true]
      refine ⟨e, ?_, ?_⟩
      · exact List.count_pos_iff.mp (Nat.lt_of_lt_of_le Nat.zero_lt_one
          (Nat.le_of_lt hdup))
      · simp only [bne_iff_ne, ne_eq]
        omega
    simp only [data_to_deliver, hany, if_true]
  · exact List.nodup_dedup _

/-- Witness for C6 (amended): `["p", "q", "p"]` with every path existing and
resolving to itself; `resolved "p"` occurs twice. -/
theorem duplicate_path_handling_witness :
    (∃ msg, data_to_deliver (fun _ => true) (fun p => p) ["p", "q", "p"]
      = Except.error msg) ∧
    (localHandlerDataList (fun _ => true) (fun p => p) ["p", "q", "p"]).Nodup :=
  duplicate_path_handling (fun _ => true) (fun p => p) ["p", "q", "p"]
    (DeliveryItem.resolved "p") (by decide)

/-! ### Claim C7: staging directory creation (`DataDeliverer.create_directories`)

The loop (data_deliverer.py:394-421) tries `mkdir` on the root and its four
subfolders.  On an `IOError` it prints, and only if the root exists removes the
whole tree with `shutil.rmtree` and exits; if the root does not exist the
`else: pass` branch lets the loop continue, and the function falls through to
`return True, dirs`.  `mkdirOk` and `rmtreeOk` are environment oracles; the
filesystem is the list of existing directories. -/

/-- The five directories `temp_dir / sf` for `sf ∈ ["", "files/", "keys/",
"meta/", "logs/"]`. -/
def dd_dirs (root : String) : List String :=
  [root, root ++ "/files", root ++ "/keys", root ++ "/meta", root ++ "/logs"]

/-- `shutil.rmtree(temp_dir)`: removes the root and everything under it. -/
def rmtree (root : String) (fs : List String) : List String :=
  fs.filter (fun d => !(d == root || (root ++ "/").data.isPrefixOf d.data))

inductive CDResult where
  | exited (msg : String)
  | returned (ok : Bool) (dirs : List String)
deriving Repr, DecidableEq

/-- The `for d_ in dirs` loop of `create_directories`. -/
def cdLoop (mkdirOk : String → Bool) (rmtreeOk : Bool) (root : String)
    (alldirs : List String) : List String → List String → CDResult × List String
  | fs, [] => (CDResult.returned true alldirs, fs)
  | fs, d :: rest =>
    if mkdirOk d then
      cdLoop mkdirOk rmtreeOk root alldirs (fs ++ [d]) rest
    else
      if fs.contains root then
        if rmtreeOk then
          (CDResult.exited "Temporary directory deleted.", rmtree root fs)
        else
          (CDResult.exited "Could not delete directory.", fs)
      else
        cdLoop mkdirOk rmtreeOk root alldirs fs rest

/-- `DataDeliverer.create_directories` (data_deliverer.py:381-421) under the
environment oracles, starting from filesystem `fs0`. -/
def create_directories (mkdirOk : String → Bool) (rmtreeOk : Bool)
    (fs0 : List String) (root : String) : CDResult × List String :=
  cdLoop mkdirOk rmtreeOk root (dd_dirs root) fs0 (dd_dirs root)

/-- Claim C7 (code bug): when creating the staging root itself fails and the
root therefore never exists (e.g. permission denied in the working directory),
every subsequent `mkdir` also fails, yet the loop keeps going and the function
falls through to `return True, dirs` — the session does not abort even though
creation failed, contradicting the claim and the function's own docstring
("True if directories created", "Raises IOError").  Evaluation of the
embedding at that failing environment: -/
theorem create_directories_false_success :
    create_directories (fun _ => false) true [] "DataDelivery_T"
      = (CDResult.returned true (dd_dirs "DataDelivery_T"), []) := by
  decide

/-! ### Claims C8 and C9: the object-store gateway (`put` / `get`)

`DataDeliverer.put` (data_deliverer.py:444-500) and `DataDeliverer.get`
(data_deliverer.py:502-541).  The S3 connection is a bucket name, the set of
buckets of the resource, and the bucket's object keys.  `uploadOk` /
`downloadOk` / `mkdirOk` are transport and filesystem oracles. -/

structure S3State where
  buckets : List String
  bucket : String
  objects : List String
deriving Repr, DecidableEq

/-- Modelled from the spec: `S3Object.file_exists_in_bucket` lives in
`code_api/datadel_s3.py`, which is not under src.  Spec §4.5:
`keyExists(key) -> (bool, matchingKeys)` is a prefix-aware existence check
returning whether any object key matches and the list of matching keys. -/
def file_exists_in_bucket (objects : List String) (key : String) :
    Bool × List String :=
  let matching := objects.filter (fun k => key.data.isPrefixOf k.data)
  (!matching.isEmpty, matching)

/-- Fuel-driven worker for Python `str.split(sep)` with a substring
separator. -/
def splitSeqGo (sep : List Char) : Nat → List Char → List (List Char)
  | _, [] => [[]]
  | 0, l => [l]
  | fuel + 1, c :: cs =>
    if sep.isPrefixOf (c :: cs) && !sep.isEmpty then
      [] :: splitSeqGo sep fuel ((c :: cs).drop sep.length)
    else
      match splitSeqGo sep fuel cs with
      | [] => [[c]]
      | h :: t => (c :: h) :: t

/-- Python `str.split(sep)` for a non-empty separator string. -/
def splitSeqChars (sep l : List Char) : List (List Char) :=
  splitSeqGo sep l.length l

inductive PutOutcome where
  | raisedS3Error (msg : String)
  | skippedExisting (msg : String)
  | uploaded (msg : String)
  | printedUploadError
deriving Repr, DecidableEq

/-- `DataDeliverer.put`: checks `self.s3.bucket in self.s3.resource.buckets.all()`
first and raises `S3Error` when absent; otherwise computes the target key
(root basename, or the `spec_path`-relative path with a folder-marker object
created when missing), skips if the key already exists, else uploads (the
oracle `uploadOk` deciding transport success; on failure the exception is
printed and `None` returned). -/
def put (s3 : S3State) (uploadOk : Bool) (file_name file_str : String)
    (spec_path : Option String) : PutOutcome × S3State :=
  if s3.buckets.contains s3.bucket then
    let filepath := match spec_path with
      | none => file_name
      | some sp => sp ++ String.mk ((splitSeqChars sp.data file_str.data).getLastD [])
    let objects1 := match spec_path with
      | none => s3.objects
      | some _ =>
        let all_subfolders :=
          String.mk ((splitSeqChars file_name.data filepath.data).headD [])
        if s3.objects.contains all_subfolders then s3.objects
        else s3.objects ++ [all_subfolders]
    if (file_exists_in_bucket objects1 filepath).1 then
      (PutOutcome.skippedExisting ("File exists: " ++ file_name ++ ", not uploading file."),
       { s3 with objects := objects1 })
    else
      if uploadOk then
        (PutOutcome.uploaded ("Success: " ++ file_str ++ " uploaded to S3!"),
         { s3 with objects := objects1 ++ [filepath] })
      else
        (PutOutcome.printedUploadError, { s3 with objects := objects1 })
  else
    (PutOutcome.raisedS3Error
      "The project does not have an S3 bucket. Unable to perform delivery.", s3)

structure LocalFS where
  files : List String
  dirs : List String
deriving Repr, DecidableEq

/-- Parent directory of a path string (everything before the last `/`). -/
def parentOf (p : String) : String :=
  String.mk (((splitOnChar '/' p.data).dropLast.intersperse ['/']).flatten)

structure GetOutcome where
  retVal : Option String
  downloads : List String
  skips : List String
  exited : Bool
  fs : LocalFS
deriving Repr, DecidableEq

/-- The `for f in filelist` loop of `DataDeliverer.get`: for each matched key,
ensure the parent directory of `tempdir[1] / f` exists (`sys.exit` if creating
it fails), then download unless the local target already exists, in which case
the file is skipped with a log line and no error. -/
def getLoop (downloadOk mkdirOk : String → Bool) (tmp : String) :
    List String → LocalFS → GetOutcome
  | [], fs => { retVal := none, downloads := [], skips := [], exited := false, fs := fs }
  | f :: rest, fs =>
    let new_path := joinPath tmp f
    let parent := parentOf new_path
    if fs.dirs.contains parent || mkdirOk parent then
      let fs1 := if fs.dirs.contains parent then fs
                 else { fs with dirs := fs.dirs ++ [parent] }
      if fs1.files.contains new_path then
        let out := getLoop downloadOk mkdirOk tmp rest fs1
        { out with skips := f :: out.skips }
      else
        if downloadOk f then
          let out := getLoop downloadOk mkdirOk tmp rest
            { fs1 with files := fs1.files ++ [new_path] }
          { out with downloads := f :: out.downloads }
        else
          getLoop downloadOk mkdirOk tmp rest fs1
    else
      { retVal := none, downloads := [], skips := [], exited := true, fs := fs }

/-- `DataDeliverer.get` (data_deliverer.py:502-541): if the bucket is absent
the function body is skipped entirely — no exception is raised, nothing is
downloaded and `None` is returned; otherwise the keys matching `path` are
resolved with `file_exists_in_bucket` and downloaded into
`tempdir[1]` unless already present locally. -/
def get (s3 : S3State) (downloadOk mkdirOk : String → Bool) (tmp : String)
    (fs : LocalFS) (path : String) : GetOutcome :=
  if s3.buckets.contains s3.bucket then
    let fe := file_exists_in_bucket s3.objects path
    if !fe.1 then
      { retVal := some ("File does not exist: " ++ path ++ ", not downloading anything."),
        downloads := [], skips := [], exited := false, fs := fs }
    else
      getLoop downloadOk mkdirOk tmp fe.2 fs
  else
    { retVal := none, downloads := [], skips := [], exited := false, fs := fs }

/-- A concrete S3 connection whose configured bucket is not among the
resource's buckets. -/
def bucketlessS3 : S3State :=
  { buckets := ["other-bucket"], bucket := "proj-bucket", objects := ["k1"] }

/-- A concrete S3 connection whose bucket exists and holds two keys under the
`data/` prefix. -/
def sampleS3 : S3State :=
  { buckets := ["proj-bucket"], bucket := "proj-bucket",
    objects := ["data/a.txt", "data/b.txt"] }

/-- Claim C8 counterexample: with the bucket absent, `put` raises `S3Error`,
but `get` raises nothing at all — it falls off the end of the `if`, returns
`None`, downloads nothing and does not abort, so absence of the bucket is not
fatal on the download path as the claim states. -/
theorem get_missing_bucket_counterexample :
    get bucketlessS3 (fun _ => true) (fun _ => true) "tmp"
        { files := [], dirs := ["tmp"] } "k1"
      = { retVal := none, downloads := [], skips := [], exited := false,
          fs := { files := [], dirs := ["tmp"] } } ∧
    (put bucketlessS3 true "a.txt" "a.txt" none).1
      = PutOutcome.raisedS3Error
          "The project does not have an S3 bucket. Unable to perform delivery." := by
  decide

/-- Claim C8 (amended): both `put` and `get` check bucket existence before any
transfer and transfer nothing when it is absent; `put` raises `S3Error`, but
`get` merely returns `None` silently — no exception, no abort, no download. -/
theorem bucket_checked_before_transfer (s3 : S3State) (uploadOk : Bool)
    (file_name file_str : String) (spec_path : Option String)
    (downloadOk mkdirOk : String → Bool) (tmp path : String) (fs : LocalFS)
    (habs : s3.buckets.contains s3.bucket = false) :
    (put s3 uploadOk file_name file_str spec_path).1
      = PutOutcome.raisedS3Error
          "The project does not have an S3 bucket. Unable to perform delivery." ∧
    (put s3 uploadOk file_name file_str spec_path).2 = s3 ∧
    get s3 downloadOk mkdirOk tmp fs path
      = { retVal := none, downloads := [], skips := [], exited := false, fs := fs } := by
  have habs' : s3.bucket ∉ s3.buckets := by simpa using habs
  refine ⟨?_, ?_, ?_⟩ <;> simp [put, get, habs']

/-- Witness for C8 (amended) at the concrete bucketless connection. -/
theorem bucket_checked_before_transfer_witness :
    (put bucketlessS3 true "a.txt" "a.txt" (some "sub")).1
      = PutOutcome.raisedS3Error
          "The project does not have an S3 bucket. Unable to perform delivery." ∧
    (put bucketlessS3 true "a.txt" "a.txt" (some "sub")).2 = bucketlessS3 ∧
    get bucketlessS3 (fun _ => false) (fun _ => false) "tmp"
        { files := [], dirs := [] } "k1"
      = { retVal := none, downloads := [], skips := [], exited := false,
          fs := { files := [], dirs := [] } } :=
  bucket_checked_before_transfer bucketlessS3 true "a.txt" "a.txt" (some "sub")
    (fun _ => false) (fun _ => false) "tmp" "k1" { files := [], dirs := [] }
    (by decide)

/-! ### Lemmas for claim C9 (idempotent download skip) -/

theorem getLoop_files_mono (downloadOk mkdirOk : String → Bool) (tmp : String) :
    ∀ (fl : List String) (fs : LocalFS) (x : String), x ∈ fs.files →
      x ∈ (getLoop downloadOk mkdirOk tmp fl fs).fs.files := by
  intro fl
  induction fl with
  | nil => intro fs x hx; simpa [getLoop] using hx
  | cons f rest ih =>
    intro fs x hx
    simp only [getLoop]
    by_cases hdir : fs.dirs.contains (parentOf (joinPath tmp f))
    · simp only [hdir, Bool.true_or, if_true, if_pos]
      by_cases hfile : fs.files.contains (joinPath tmp f)
      · simp only [hfile, if_true]
        exact ih fs x hx
      · simp only [hfile, Bool.false_eq_true, if_false]
        by_cases hdl : downloadOk f
        · simp only [hdl, if_true]
          exact ih _ x (List.mem_append_left _ hx)
        · simp only [hdl, Bool.false_eq_true, if_false]
          exact ih fs x hx
    · by_cases hmk : mkdirOk (parentOf (joinPath tmp f))
      · simp only [hdir, hmk, Bool.false_or, if_true, Bool.false_eq_true, if_false]
        by_cases hfile : fs.files.contains (joinPath tmp f)
        · simp only [hfile, if_true]
          exact ih _ x hx
        · simp only [hfile, Bool.false_eq_true, if_false]
          by_cases hdl : downloadOk f
          · simp only [hdl, if_true]
            exact ih _ x (List.mem_append_left _ hx)
          · simp only [hdl, Bool.false_eq_true, if_false]
            exact ih _ x hx
      · simp only [hdir, hmk, Bool.or_self, Bool.false_eq_true, if_false]
        exact hx

theorem getLoop_target_present (tmp : String) :
    ∀ (fl : List String) (fs : LocalFS) (g : String), g ∈ fl →
      joinPath tmp g ∈
        (getLoop (fun _ => true) (fun _ => true) tmp fl fs).fs.files := by
  intro fl
  induction fl with
  | nil => intro fs g hg; cases hg
  | cons f rest ih =>
    intro fs g hg
    simp only [getLoop, Bool.or_true, if_true]
    by_cases hdir : fs.dirs.contains (parentOf (joinPath tmp f))
    all_goals
      simp only [hdir, if_true, Bool.false_eq_true, if_false]
      by_cases hfile :
        (if fs.dirs.contains (parentOf (joinPath tmp f)) = true then fs
         else { fs with dirs := fs.dirs ++ [parentOf (joinPath tmp f)] }).files.contains
          (joinPath tmp f)
      all_goals
        simp only [hdir, if_true, Bool.false_eq_true, if_false] at hfile
        simp only [hfile, if_true, Bool.false_eq_true, if_false]
        cases List.mem_cons.mp hg with
        | inl he =>
          subst he
          first
          | exact getLoop_files_mono _ _ tmp rest _ _
              (List.mem_of_elem_eq_true hfile)
          | exact getLoop_files_mono _ _ tmp rest _ _
              (List.mem_append_right _ (List.mem_singleton.mpr rfl))
        | inr hr =>
          exact ih _ g hr

theorem getLoop_all_present (downloadOk : String → Bool) (tmp : String) :
    ∀ (fl : List String) (fs : LocalFS), (∀ g ∈ fl, joinPath tmp g ∈ fs.files) →
      (getLoop downloadOk (fun _ => true) tmp fl fs).downloads = [] ∧
      (getLoop downloadOk (fun _ => true) tmp fl fs).skips = fl ∧
      (getLoop downloadOk (fun _ => true) tmp fl fs).exited = false ∧
      (getLoop downloadOk (fun _ => true) tmp fl fs).fs.files = fs.files := by
  intro fl
  induction fl with
  | nil => intro fs _; exact ⟨rfl, rfl, rfl, rfl⟩
  | cons f rest ih =>
    intro fs h
    have hf : joinPath tmp f ∈ fs.files := h f (List.mem_cons_self f rest)
    have hrest : ∀ g ∈ rest, joinPath tmp g ∈ fs.files :=
      fun g hg => h g (List.mem_cons_of_mem f hg)
    simp only [getLoop, Bool.or_true, if_true]
    by_cases hdir : fs.dirs.contains (parentOf (joinPath tmp f))
    · have hfile : fs.files.contains (joinPath tmp f) = true :=
        List.elem_eq_true_of_mem hf
      simp only [hdir, if_true, hfile]
      have ⟨ih1, ih2, ih3, ih4⟩ := ih fs hrest
      exact ⟨ih1, by rw [ih2], ih3, ih4⟩
    · have hfile : ({ fs with dirs := fs.dirs ++ [parentOf (joinPath tmp f)] }
          : LocalFS).files.contains (joinPath tmp f) = true :=
        List.elem_eq_true_of_mem hf
      simp only [hdir, Bool.false_eq_true, if_false, hfile, if_true]
      have ⟨ih1, ih2, ih3, ih4⟩ :=
        ih { fs with dirs := fs.dirs ++ [parentOf (joinPath tmp f)] } hrest
      exact ⟨ih1, by rw [ih2], ih3, ih4⟩

theorem getLoop_cons (downloadOk : String → Bool) (tmp f : String)
    (rest : List String) (fs fs1 : LocalFS)
    (hfs1 : fs1 = if fs.dirs.contains (parentOf (joinPath tmp f)) = true then fs
        else { fs with dirs := fs.dirs ++ [parentOf (joinPath tmp f)] }) :
    getLoop downloadOk (fun _ => true) tmp (f :: rest) fs
      = if fs1.files.contains (joinPath tmp f) = true then
          { getLoop downloadOk (fun _ => true) tmp rest fs1 with
            skips := f :: (getLoop downloadOk (fun _ => true) tmp rest fs1).skips }
        else if downloadOk f = true then
          { getLoop downloadOk (fun _ => true) tmp rest
              { fs1 with files := fs1.files ++ [joinPath tmp f] } with
            downloads := f :: (getLoop downloadOk (fun _ => true) tmp rest
              { fs1 with files := fs1.files ++ [joinPath tmp f] }).downloads }
        else getLoop downloadOk (fun _ => true) tmp rest fs1 := by
  subst hfs1
  simp [getLoop]

theorem getLoop_skip_existing_key (downloadOk : String → Bool) (tmp g : String) :
    ∀ (fl : List String) (fs : LocalFS), joinPath tmp g ∈ fs.files →
      g ∉ (getLoop downloadOk (fun _ => true) tmp fl fs).downloads ∧
      (g ∈ fl → g ∈ (getLoop downloadOk (fun _ => true) tmp fl fs).skips) := by
  intro fl
  induction fl with
  | nil =>
    intro fs _
    exact ⟨fun h => by simp [getLoop] at h, fun h => absurd h (List.not_mem_nil g)⟩
  | cons f rest ih =>
    intro fs hg
    rw [getLoop_cons downloadOk tmp f rest fs _ rfl]
    have hg1 : joinPath tmp g ∈
        (if fs.dirs.contains (parentOf (joinPath tmp f)) = true then fs
         else { fs with dirs := fs.dirs ++ [parentOf (joinPath tmp f)] }).files := by
      by_cases h : parentOf (joinPath tmp f) ∈ fs.dirs <;> simp [h, hg]
    by_cases hfile :
        (if fs.dirs.contains (parentOf (joinPath tmp f)) = true then fs
         else { fs with dirs := fs.dirs ++ [parentOf (joinPath tmp f)] }).files.contains
          (joinPath tmp f)
    · simp only [hfile, if_true]
      have ⟨ihd, ihs⟩ := ih _ hg1
      refine ⟨ihd, fun hm => ?_⟩
      cases List.mem_cons.mp hm with
      | inl he => exact he ▸ List.mem_cons_self _ _
      | inr hr => exact List.mem_cons_of_mem f (ihs hr)
    · have hfg : f ≠ g := by
        intro he
        subst he
        exact hfile (List.elem_eq_true_of_mem hg1)
      simp only [hfile, Bool.false_eq_true, if_false]
      by_cases hdl : downloadOk f
      · simp only [hdl, if_true]
        have ⟨ihd, ihs⟩ := ih
          { (if fs.dirs.contains (parentOf (joinPath tmp f)) = true then fs
             else { fs with dirs := fs.dirs ++ [parentOf (joinPath tmp f)] }) with
            files := (if fs.dirs.contains (parentOf (joinPath tmp f)) = true then fs
             else { fs with dirs := fs.dirs ++ [parentOf (joinPath tmp f)] }).files
              ++ [joinPath tmp f] }
          (List.mem_append_left _ hg1)
        refine ⟨fun hmem => ?_, fun hm => ?_⟩
        · cases List.mem_cons.mp hmem with
          | inl he => exact hfg he.symm
          | inr hr => exact ihd hr
        · cases List.mem_cons.mp hm with
          | inl he => exact absurd he.symm hfg
          | inr hr => exact ihs hr
      · simp only [hdl, Bool.false_eq_true, if_false]
        have ⟨ihd, ihs⟩ := ih _ hg1
        refine ⟨ihd, fun hm => ?_⟩
        cases List.mem_cons.mp hm with
        | inl he => exact absurd he.symm hfg
        | inr hr => exact ihs hr

/-- Claim C9: a remote key whose local target already exists is reported as a
skip by `get`, not downloaded and not an error; and a second invocation of
`get` after a first one downloads nothing at all — every matched key is a
skip and the run does not abort, so repeated downloads are idempotent. -/
theorem get_skip_existing_idempotent (s3 : S3State) (tmp path g : String)
    (fs : LocalFS)
    (hb : s3.buckets.contains s3.bucket = true)
    (hg : g ∈ (file_exists_in_bucket s3.objects path).2)
    (hex : joinPath tmp g ∈ fs.files) :
    g ∈ (get s3 (fun _ => true) (fun _ => true) tmp fs path).skips ∧
    g ∉ (get s3 (fun _ => true) (fun _ => true) tmp fs path).downloads ∧
    (get s3 (fun _ => true) (fun _ => true) tmp
        (get s3 (fun _ => true) (fun _ => true) tmp fs path).fs path).downloads = [] ∧
    (get s3 (fun _ => true) (fun _ => true) tmp
        (get s3 (fun _ => true) (fun _ => true) tmp fs path).fs path).skips
      = (file_exists_in_bucket s3.objects path).2 ∧
    (get s3 (fun _ => true) (fun _ => true) tmp
        (get s3 (fun _ => true) (fun _ => true) tmp fs path).fs path).exited = false := by
  have hb' : s3.bucket ∈ s3.buckets := by simpa using hb
  have hne : (file_exists_in_bucket s3.objects path).2 ≠ [] := List.ne_nil_of_mem hg
  have hfound : (file_exists_in_bucket s3.objects path).1 = true := by
    unfold file_exists_in_bucket at hne ⊢
    simpa [List.isEmpty_iff] using hne
  have hget : ∀ fs' : LocalFS, get s3 (fun _ => true) (fun _ => true) tmp fs' path
      = getLoop (fun _ => true) (fun _ => true) tmp
          (file_exists_in_bucket s3.objects path).2 fs' := by
    intro fs'
    simp [get, hb', hfound]
  rw [hget, hget]
  have hskip := getLoop_skip_existing_key (fun _ => true) tmp g
    (file_exists_in_bucket s3.objects path).2 fs hex
  have hpresent : ∀ g' ∈ (file_exists_in_bucket s3.objects path).2,
      joinPath tmp g' ∈ (getLoop (fun _ => true) (fun _ => true) tmp
        (file_exists_in_bucket s3.objects path).2 fs).fs.files :=
    fun g' hg' => getLoop_target_present tmp _ fs g' hg'
  have hall := getLoop_all_present (fun _ => true) tmp
    (file_exists_in_bucket s3.objects path).2 _ hpresent
  exact ⟨hskip.2 hg, hskip.1, hall.1, hall.2.1, hall.2.2.1⟩

/-- Witness for C9 at a concrete input: the bucket holds `data/a.txt` and
`data/b.txt`, the requested path `data` matches both, and the local target of
`data/a.txt` already exists under `tmp`. -/
theorem get_skip_existing_idempotent_witness :
    "data/a.txt" ∈ (get sampleS3 (fun _ => true) (fun _ => true) "tmp"
        { files := ["tmp/data/a.txt"], dirs := ["tmp/data"] } "data").skips ∧
    "data/a.txt" ∉ (get sampleS3 (fun _ => true) (fun _ => true) "tmp"
        { files := ["tmp/data/a.txt"], dirs := ["tmp/data"] } "data").downloads ∧
    (get sampleS3 (fun _ => true) (fun _ => true) "tmp"
        (get sampleS3 (fun _ => true) (fun _ => true) "tmp"
          { files := ["tmp/data/a.txt"], dirs := ["tmp/data"] } "data").fs "data").downloads
      = [] ∧
    (get sampleS3 (fun _ => true) (fun _ => true) "tmp"
        (get sampleS3 (fun _ => true) (fun _ => true) "tmp"
          { files := ["tmp/data/a.txt"], dirs := ["tmp/data"] } "data").fs "data").skips
      = (file_exists_in_bucket sampleS3.objects "data").2 ∧
    (get sampleS3 (fun _ => true) (fun _ => true) "tmp"
        (get sampleS3 (fun _ => true) (fun _ => true) "tmp"
          { files := ["tmp/data/a.txt"], dirs := ["tmp/data"] } "data").fs "data").exited
      = false :=
  get_skip_existing_idempotent sampleS3 "tmp" "data" "data/a.txt"
    { files := ["tmp/data/a.txt"], dirs := ["tmp/data"] }
    (by decide) (by decide) (by decide)

/-! ### Claim C10: `LocalFileHandler.__collect_file_info_local`

The recursion walks files and directories (file_handler_local.py:83-125),
producing for each file the full FileEntry of lines 106-116.  The compression
detection of `fc.Compressor.is_compressed` (content inspection) is carried as
an attribute of the file node; `uuid.uuid4().hex` draws are supplied by the
stream `us`, indexed in traversal order.  Recursion is fuel-driven (any fuel
at least the nesting depth reproduces the Python traversal; exhausted fuel
truncates, which no theorem relies on). -/

inductive FSNode where
  | file (name : String) (size : Nat) (isCompressed : Bool)
  | dir (name : String) (children : List FSNode)
deriving Repr

/-- The traversal of `__collect_file_info_local` over a list of paths, with
`base` the filesystem location and `folder` the accumulated subpath; returns
the collected entries in traversal order and the next uuid index. -/
def collect_file_info (localDest : String) (us : Nat → String) :
    Nat → String → String → List FSNode → Nat → List (String × FileEntry) × Nat
  | _, _, _, [], i => ([], i)
  | 0, _, _, _ :: _, i => ([], i)
  | fuel + 1, base, folder, FSNode.file name size isComp :: rest, i =>
    let path_processed := create_encrypted_name localDest folder name isComp
    let entry : FileEntry :=
      { path_raw := joinPath base name, subpath := folder, size_raw := size,
        compressed := isComp, path_processed := path_processed,
        size_processed := 0,
        path_remote := generate_bucket_filepath (us i) (baseName path_processed) folder,
        overwrite := false, checksum := "" }
    let (infos, i') := collect_file_info localDest us fuel base folder rest (i + 1)
    ((joinPath folder name, entry) :: infos, i')
  | fuel + 1, base, folder, FSNode.dir name children :: rest, i =>
    let (info, i') := collect_file_info localDest us fuel (joinPath base name)
      (joinPath folder name) children i
    let (infos, i'') := collect_file_info localDest us fuel base folder rest i'
    (info ++ infos, i'')

/-- Claim C10: every FileEntry produced by the local file-info collection has,
at build time, an empty checksum, overwrite false and size_processed zero. -/
theorem collect_file_info_initial_fields (localDest : String) (us : Nat → String)
    (fuel : Nat) (base folder : String) (nodes : List FSNode) (i : Nat)
    (k : String) (e : FileEntry)
    (hmem : (k, e) ∈ (collect_file_info localDest us fuel base folder nodes i).1) :
    e.checksum = "" ∧ e.overwrite = false ∧ e.size_processed = 0 := by
  induction fuel generalizing base folder nodes i k e with
  | zero =>
    cases nodes with
    | nil => cases hmem
    | cons n rest => cases hmem
  | succ fuel ih =>
    cases nodes with
    | nil => cases hmem
    | cons n rest =>
      cases n with
      | file name size isComp =>
        simp only [collect_file_info] at hmem
        cases List.mem_cons.mp hmem with
        | inl he =>
          injection he with hk he2
          rw [he2]
          exact ⟨rfl, rfl, rfl⟩
        | inr hr => exact ih base folder rest (i + 1) k e hr
      | dir name children =>
        simp only [collect_file_info] at hmem
        cases List.mem_append.mp hmem with
        | inl hl => exact ih (joinPath base name) (joinPath folder name) children i k e hl
        | inr hr =>
          exact ih base folder rest
            (collect_file_info localDest us fuel (joinPath base name)
              (joinPath folder name) children i).2 k e hr
/-- A concrete filesystem tree for the C10 witness: a raw text file and a
directory holding an already-compressed file. -/
def sampleTree : List FSNode :=
  [FSNode.file "a.txt" 10 false, FSNode.dir "sub" [FSNode.file "b.zip" 5 true]]

/-- A constant uuid stream for the C10 witness. -/
def sampleUuidStream : Nat → String := fun _ => "0123456789abcdef0123456789abcdef"

/-- The FileEntry that `collect_file_info` builds for `sub/b.zip` in
`sampleTree`. -/
def sampleCollectedEntry : FileEntry :=
  { path_raw := "root/sub/b.zip", subpath := "sub", size_raw := 5,
    compressed := true,
    path_processed := create_encrypted_name "dest" "sub" "b.zip" true,
    size_processed := 0,
    path_remote := generate_bucket_filepath "0123456789abcdef0123456789abcdef"
      (baseName (create_encrypted_name "dest" "sub" "b.zip" true)) "sub",
    overwrite := false, checksum := "" }

/-- Witness for C10 at a concrete tree: the entry collected for `sub/b.zip`
has empty checksum, overwrite false and size_processed zero. -/
theorem collect_file_info_initial_fields_witness :
    ("sub/b.zip", sampleCollectedEntry)
      ∈ (collect_file_info "dest" sampleUuidStream 9 "root" "" sampleTree 0).1 ∧
    sampleCollectedEntry.checksum = "" ∧
    sampleCollectedEntry.overwrite = false ∧
    sampleCollectedEntry.size_processed = 0 :=
  ⟨by decide,
   collect_file_info_initial_fields "dest" sampleUuidStream 9 "root" "" sampleTree 0
     "sub/b.zip" sampleCollectedEntry (by decide)⟩

end DDS
